import Mathlib

/-!
Verification of core components of the `mono` repository (zero / replicache /
reflect sync stack), against its natural-language specification.

The development shallowly embeds the TypeScript sources:
* `packages/zero-client/src/client/keys.ts` (row-key derivation),
* `packages/zero-client/src/client/context.ts` (`PokeHandler`, `mergePokes`),
* `packages/replicache/src/connection-loop.ts` (delay computation, close), and
* the reflect server `handleConnection` handler,
as executable Lean functions.  JavaScript records (insertion-ordered string-keyed
objects) are embedded as association lists, JS `Map`s likewise; fallible code
returns `Except String`.  JS numbers are embedded as `Nat`/`Int`/`Rat` as
appropriate (no row data in these claims depends on float behaviour).

Components of the repository whose implementation files are not part of the
source snapshot (the CVR updaters of the view-syncer, the replicache poke
application, the `h128` hash and the reflect `compareVersions` helper) are
modelled from the specification text; each such definition carries a doc
comment starting with `Modelled from the spec:`.
-/

namespace Spec2Proof

/-! ## JSON values

JS values carried by pokes and rows.  Numbers are embedded as integers: all
key values and row contents exercised by the claims are strings, integers or
booleans, and `JSON.stringify` / string coercion of an integer-valued JS
number agrees with `Int` printing. -/

inductive JSVal where
  | nul : JSVal
  | bool (b : Bool) : JSVal
  | num (n : Int) : JSVal
  | str (s : String) : JSVal
  | arr (elems : List JSVal) : JSVal
  | obj (fields : List (String × JSVal)) : JSVal
/-- A JS row object: `Record<string, Value>` in insertion order. -/
abbrev Row := List (String × JSVal)

/-! ## Insertion-ordered record update

`recordSet m k v` is JS `m[k] = v` on an object embedded as an association
list: an existing key keeps its position (first occurrence is updated), a new
key is appended at the end. -/

def recordSet {κ α : Type} [DecidableEq κ] : List (κ × α) → κ → α → List (κ × α)
  | [], k, v => [(k, v)]
  | (k', v') :: t, k, v =>
      if k' = k then (k, v) :: t else (k', v') :: recordSet t k v

theorem beq_string_eq_false {κ : Type} [DecidableEq κ] {k k' : κ} (h : ¬k = k') :
    (k == k') = false := by
  simpa using h

theorem recordSet_lookup {κ α : Type} [DecidableEq κ] (m : List (κ × α)) (k k' : κ) (v : α) :
    (recordSet m k v).lookup k' = if k' = k then some v else m.lookup k' := by
  induction m with
  | nil =>
      by_cases h : k' = k
      · simp [recordSet, List.lookup, h]
      · simp [recordSet, List.lookup, h, beq_string_eq_false h]
  | cons p t ih =>
      obtain ⟨k₀, v₀⟩ := p
      by_cases h0 : k₀ = k
      · subst h0
        by_cases h : k' = k₀
        · simp [recordSet, List.lookup, h]
        · simp [recordSet, List.lookup, h, beq_string_eq_false h]
      · by_cases h : k' = k₀
        · subst h
          simp [recordSet, List.lookup, h0]
        · simp [recordSet, List.lookup, h0, h, beq_string_eq_false h, ih]

theorem recordSet_self {κ α : Type} [DecidableEq κ] (m : List (κ × α)) (k : κ) (v : α)
    (h : m.lookup k = some v) : recordSet m k v = m := by
  induction m with
  | nil => simp [List.lookup] at h
  | cons p t ih =>
      obtain ⟨k₀, v₀⟩ := p
      by_cases h0 : k₀ = k
      · subst h0
        simp only [List.lookup, beq_self_eq_true] at h
        simp only [Option.some.injEq] at h
        simp [recordSet, h]
      · have hne : (k == k₀) = false := beq_string_eq_false (fun he => h0 he.symm)
        simp only [List.lookup, hne] at h
        simp [recordSet, h0, ih h]

/-! ## Embedding of `packages/zero-client/src/client/keys.ts` -/

/-- `toClientsKey` of keys.ts: `CLIENTS_KEY_PREFIX + clientID` with the
constant `'c/'`. -/
def toClientsKey (clientID : String) : String := "c/" ++ clientID

/-- `toDesiredQueriesKey` of keys.ts (`'d/' + clientID + '/' + hash`). -/
def toDesiredQueriesKey (clientID : String) (hash : String) : String :=
  "d/" ++ clientID ++ "/" ++ hash

/-- `toGotQueriesKey` of keys.ts (`'g/' + hash`). -/
def toGotQueriesKey (hash : String) : String := "g/" ++ hash

/-- A primary-key value: `primaryKeyValueSchema` of zero-protocol admits
strings, numbers and booleans. -/
inductive PrimVal where
  | str (s : String) : PrimVal
  | num (n : Int) : PrimVal
  | bool (b : Bool) : PrimVal
deriving DecidableEq, Repr

/-- Mapping a fallible function over a list in order, stopping at the first
error (the behaviour of a JS loop of awaited/thrown steps). -/
def mapME {α β : Type} (f : α → Except String β) : List α → Except String (List β)
  | [] => Except.ok []
  | a :: t => do
      let b ← f a
      let r ← mapME f t
      Except.ok (b :: r)

theorem except_bind_ok {ε α β : Type} (b : α) (f : α → Except ε β) :
    (Except.ok b >>= f) = f b := rfl

theorem except_bind_error {ε α β : Type} (e : ε) (f : α → Except ε β) :
    ((Except.error e : Except ε α) >>= f) = Except.error e := rfl

/-- `v.parse(value, primaryKeyValueSchema)`: succeeds exactly on primitive
string/number/boolean values, throws otherwise (including on a missing
column, where JS would pass `undefined`). -/
def parsePrimaryKeyValue : Option JSVal → Except String PrimVal
  | some (JSVal.str s) => Except.ok (PrimVal.str s)
  | some (JSVal.num n) => Except.ok (PrimVal.num n)
  | some (JSVal.bool b) => Except.ok (PrimVal.bool b)
  | _ => Except.error ("invalid primary key value")

/-- JS string coercion of a primary-key value, as used by
`'' + value` concatenation in `toPrimaryKeyString`. -/
def primToJSString : PrimVal → String
  | PrimVal.str s => s
  | PrimVal.num n => toString n
  | PrimVal.bool b => cond b ("true") ("false")

/-- Nat to a fixed-width lowercase hexadecimal string (helper for JSON
string escaping). -/
def natToHex4 (n : Nat) : String :=
  let digit := fun (d : Nat) =>
    String.singleton (Char.ofNat (if d < 10 then 48 + d else 87 + d))
  digit (n / 4096 % 16) ++ digit (n / 256 % 16) ++ digit (n / 16 % 16) ++ digit (n % 16)

/-- JSON escaping of a single character, as performed by `JSON.stringify`. -/
def jsonEscapeChar (c : Char) : String :=
  if c = '"' then ("\\\"")
  else if c = '\\' then ("\\\\")
  else if c = '\n' then ("\\n")
  else if c = '\r' then ("\\r")
  else if c = '\t' then ("\\t")
  else if c = '\x08' then ("\\b")
  else if c = '\x0c' then ("\\f")
  else if c.toNat < 32 then ("\\u") ++ natToHex4 c.toNat
  else String.singleton c

/-- `JSON.stringify` of a string. -/
def jsonStringifyString (s : String) : String :=
  "\"" ++ String.join (s.data.map jsonEscapeChar) ++ "\""

/-- `JSON.stringify` of a primitive primary-key value. -/
def jsonStringifyPrim : PrimVal → String
  | PrimVal.str s => jsonStringifyString s
  | PrimVal.num n => toString n
  | PrimVal.bool b => cond b ("true") ("false")

/-- `JSON.stringify` of an array of primitive values. -/
def jsonStringifyPrimList (vs : List PrimVal) : String :=
  "[" ++ String.intercalate (",") (vs.map jsonStringifyPrim) ++ "]"

/-- Modelled from the spec: `H128 is a stable non-cryptographic 128-bit
hash`.  The implementation (`h128` of shared/src/hash.ts) is not part of the
source snapshot; the spec fixes only that it is a fixed deterministic
function of the input string, so it is modelled as a concrete polynomial
hash reduced mod 2^128.  No claim depends on the hash values themselves. -/
def h128 (s : String) : String :=
  toString (s.data.foldl (fun a c => (a * 1099511628211 + c.toNat) % (2 ^ 128)) 14695981039346656037)

/-- `toPrimaryKeyString` of keys.ts: single-column primary keys use the
primitive value itself as the id segment; composite keys hash the
`JSON.stringify` of the list of key values in primary-key order.
`ENTITIES_KEY_PREFIX` is the constant `'e/'`. -/
def toPrimaryKeyString (tableName : String) (primaryKey : List String)
    (value : Row) : Except String String :=
  match primaryKey with
  | [k] => do
      let pv ← parsePrimaryKeyValue (value.lookup k)
      Except.ok ("e/" ++ tableName ++ "/" ++ primToJSString pv)
  | _ => do
      let values ← mapME (fun k => parsePrimaryKeyValue (value.lookup k)) primaryKey
      let str := jsonStringifyPrimList values
      let idSegment := h128 str
      Except.ok ("e/" ++ tableName ++ "/" ++ idSegment)

/-- The row-identifier derivation as the spec words it (§6): if the primary
key has a single column, `"e/" + table + "/" + primitive-string(value)`;
if multiple, `"e/" + table + "/" + H128(JSON.stringify([value(k) for k in
primaryKeyOrder]))`. -/
def rowIdentifierSpec (table : String) (primaryKey : List String)
    (value : Row) : Except String String :=
  if primaryKey.length = 1 then do
    let pv ← parsePrimaryKeyValue (value.lookup (primaryKey.headD ("")))
    Except.ok ("e/" ++ table ++ "/" ++ primToJSString pv)
  else do
    let vs ← mapME (fun k => parsePrimaryKeyValue (value.lookup k)) primaryKey
    Except.ok ("e/" ++ table ++ "/" ++ h128 (jsonStringifyPrimList vs))

/-- **C9**: For every table name, primary key and row value, the derived row
identifier is `"e/" + table + "/" +` the primitive string of the key value
when the primary key has a single column, and
`"e/" + table + "/" + H128(JSON.stringify)` of the list of key values in
primary-key order when it has several: `toPrimaryKeyString` agrees with the
spec's derivation on every input (including the error cases, where a
non-primitive or missing key value makes both fail). -/
theorem toPrimaryKeyString_eq_rowIdentifierSpec
    (table : String) (primaryKey : List String) (value : Row) :
    toPrimaryKeyString table primaryKey value = rowIdentifierSpec table primaryKey value := by
  match primaryKey with
  | [] => rfl
  | [k] =>
      simp [toPrimaryKeyString, rowIdentifierSpec]
  | k₁ :: k₂ :: t =>
      simp only [toPrimaryKeyString, rowIdentifierSpec, List.length_cons]
      have : ¬(t.length + 1 + 1 = 1) := by omega
      simp [this]

/-! ## JS string comparison

JS `<` on strings compares UTF-16 code units; for the cookie / version
strings of this protocol (ASCII) this coincides with code-point
lexicographic order, embedded here as an executable comparison on the
character lists. -/

def listCharLt : List Char → List Char → Bool
  | [], [] => false
  | [], _ :: _ => true
  | _ :: _, [] => false
  | c :: t, d :: u =>
      if c.toNat < d.toNat then true
      else if d.toNat < c.toNat then false
      else listCharLt t u

def jsStrLtB (a b : String) : Bool := listCharLt a.data b.data

/-! ## Embedding of the poke pipeline of
`packages/zero-client/src/client/context.ts` -/

/-- `PokeStartBody` of the zero protocol (the fields used by the client
pipeline; `schemaVersions` is not consumed by `mergePokes`). -/
structure PokeStartBody where
  pokeID : String
  baseCookie : Option String
  cookie : String

/-- `ClientsPatchOp` of the zero protocol. -/
inductive ClientsPatchOp where
  | put (clientID : String) : ClientsPatchOp
  | del (clientID : String) : ClientsPatchOp
  | clear : ClientsPatchOp

/-- `QueriesPatchOp` of the zero protocol (`{op, hash, ast?}`). -/
inductive QueriesPatchOp where
  | put (hash : String) (ast : JSVal) : QueriesPatchOp
  | del (hash : String) : QueriesPatchOp
  | clear : QueriesPatchOp

/-- `RowPatchOp` of the zero protocol (`{op, tableName, id | value, merge?,
constrain?}`). -/
inductive RowPatchOp where
  | put (tableName : String) (value : Row) : RowPatchOp
  | del (tableName : String) (id : Row) : RowPatchOp
  | update (tableName : String) (id : Row) (merge : Option Row)
      (constrain : Option (List String)) : RowPatchOp
  | clear : RowPatchOp

/-- `PokePartBody` of the zero protocol. -/
structure PokePartBody where
  pokeID : String
  lastMutationIDChanges : Option (List (String × Nat)) := none
  clientsPatch : Option (List ClientsPatchOp) := none
  desiredQueriesPatches : Option (List (String × List QueriesPatchOp)) := none
  gotQueriesPatch : Option (List QueriesPatchOp) := none
  rowsPatch : Option (List RowPatchOp) := none

/-- `PokeEndBody` of the zero protocol. -/
structure PokeEndBody where
  pokeID : String
  cancel : Bool := false

/-- The `PokeAccumulator` type of context.ts. -/
structure PokeAccumulator where
  pokeStart : PokeStartBody
  parts : List PokePartBody

/-- `PatchOperationInternal` of replicache, as produced by the translation
functions of context.ts. -/
inductive PatchOperationInternal where
  | put (key : String) (value : JSVal) : PatchOperationInternal
  | del (key : String) : PatchOperationInternal
  | update (key : String) (merge : Option Row)
      (constrain : Option (List String)) : PatchOperationInternal
  | clear : PatchOperationInternal

/-- The slice of a zero `Schema` consumed by the poke pipeline: per-table
primary keys. -/
structure TableSchemaPK where
  primaryKey : List String

structure Schema where
  tables : List (String × TableSchemaPK)

/-- `pullResponse` of the merged `PokeInternal`. -/
structure PullResponse where
  lastMutationIDChanges : List (String × Nat)
  patch : List PatchOperationInternal
  cookie : String

/-- `PokeInternal` of replicache as constructed by `mergePokes`. -/
structure PokeInternal where
  baseCookie : Option String
  pullResponse : PullResponse

/-- `clientsPatchOpToReplicachePatchOp` of context.ts: `put` writes `true`
under the clients key. -/
def clientsPatchOpToReplicachePatchOp : ClientsPatchOp → PatchOperationInternal
  | ClientsPatchOp.clear => PatchOperationInternal.clear
  | ClientsPatchOp.del clientID => PatchOperationInternal.del (toClientsKey clientID)
  | ClientsPatchOp.put clientID =>
      PatchOperationInternal.put (toClientsKey clientID) (JSVal.bool true)

/-- `queryPatchOpToReplicachePatchOp` of context.ts. -/
def queryPatchOpToReplicachePatchOp (op : QueriesPatchOp)
    (toKey : String → String) : PatchOperationInternal :=
  match op with
  | QueriesPatchOp.clear => PatchOperationInternal.clear
  | QueriesPatchOp.del hash => PatchOperationInternal.del (toKey hash)
  | QueriesPatchOp.put hash ast => PatchOperationInternal.put (toKey hash) ast

/-- Looking up `schema.tables[tableName]`; in JS a missing table makes the
subsequent `.primaryKey` access throw. -/
def lookupTable (schema : Schema) (tableName : String) : Except String TableSchemaPK :=
  match schema.tables.lookup tableName with
  | some ts => Except.ok ts
  | none => Except.error ("table not in schema")

/-- `rowsPatchOpToReplicachePatchOp` of context.ts. -/
def rowsPatchOpToReplicachePatchOp (op : RowPatchOp) (schema : Schema) :
    Except String PatchOperationInternal :=
  match op with
  | RowPatchOp.clear => Except.ok PatchOperationInternal.clear
  | RowPatchOp.del tableName id => do
      let ts ← lookupTable schema tableName
      let key ← toPrimaryKeyString tableName ts.primaryKey id
      Except.ok (PatchOperationInternal.del key)
  | RowPatchOp.put tableName value => do
      let ts ← lookupTable schema tableName
      let key ← toPrimaryKeyString tableName ts.primaryKey value
      Except.ok (PatchOperationInternal.put key (JSVal.obj value))
  | RowPatchOp.update tableName id merge constrain => do
      let ts ← lookupTable schema tableName
      let key ← toPrimaryKeyString tableName ts.primaryKey id
      Except.ok (PatchOperationInternal.update key merge constrain)

/-- The patch operations contributed by one poke part, in the order
`mergePokes` pushes them: clients patch, desired-queries patches (per
client, in record order), got-queries patch, rows patch. -/
def translatePart (schema : Schema) (part : PokePartBody) :
    Except String (List PatchOperationInternal) := do
  let clientOps := (part.clientsPatch.getD []).map clientsPatchOpToReplicachePatchOp
  let desiredOps := ((part.desiredQueriesPatches.getD []).map
      (fun p => p.2.map
        (fun op => queryPatchOpToReplicachePatchOp op (toDesiredQueriesKey p.1)))).flatten
  let gotOps := (part.gotQueriesPatch.getD []).map
      (fun op => queryPatchOpToReplicachePatchOp op toGotQueriesKey)
  let rowOps ← mapME (fun op => rowsPatchOpToReplicachePatchOp op schema)
      (part.rowsPatch.getD [])
  Except.ok (clientOps ++ desiredOps ++ gotOps ++ rowOps)

/-- The `lastMutationIDChanges` contributed by one accumulator: each part's
record entries are assigned into the merged record in order
(`mergedLastMutationIDChanges[clientID] = lastMutationID`). -/
def accLMIDFold (lmids : List (String × Nat)) (acc : PokeAccumulator) :
    List (String × Nat) :=
  acc.parts.foldl
    (fun m part =>
      (part.lastMutationIDChanges.getD []).foldl
        (fun m kv => recordSet m kv.1 kv.2) m)
    lmids

/-- All patch operations contributed by one accumulator, parts in order. -/
def accPatches (schema : Schema) (acc : PokeAccumulator) :
    Except String (List PatchOperationInternal) := do
  let ls ← mapME (translatePart schema) acc.parts
  Except.ok ls.flatten

/-- The cookie-gap check of the merge loop: the next accumulator's
`baseCookie` is compared against the previous accumulator's `cookie` only
when a previous accumulator and a (truthy) `baseCookie` exist. -/
def gapCheck (prev : Option PokeStartBody) (acc : PokeAccumulator) : Bool :=
  match prev with
  | none => false
  | some p =>
      match acc.pokeStart.baseCookie with
      | none => false
      | some b => jsStrLtB p.cookie b

/-- The accumulator loop of `mergePokes`: per accumulator, validate the
cookie chain, merge `lastMutationIDChanges` with last-writer-wins, and
append the translated patches.  (The source interleaves the
`lastMutationIDChanges` merge and the patch pushes per part; they target
disjoint accumulators, so grouping them per accumulator is
behaviour-preserving.) -/
def mergeLoop (schema : Schema) :
    List PokeAccumulator → Option PokeStartBody → List (String × Nat) →
      List PatchOperationInternal →
      Except String (List (String × Nat) × List PatchOperationInternal)
  | [], _, lmids, patch => Except.ok (lmids, patch)
  | acc :: rest, prev, lmids, patch =>
      if gapCheck prev acc then Except.error ("unexpected cookie gap")
      else do
        let patches ← accPatches schema acc
        mergeLoop schema rest (some acc.pokeStart) (accLMIDFold lmids acc)
          (patch ++ patches)

/-- `mergePokes` of context.ts: `undefined` (here `none`) on an empty
buffer; otherwise one combined poke whose `baseCookie` is the first
accumulator's and whose `cookie` is the last accumulator's, with merged
`lastMutationIDChanges` and concatenated patches; throws on a cookie gap. -/
def mergePokes (pokeBuffer : List PokeAccumulator) (schema : Schema) :
    Except String (Option PokeInternal) :=
  match pokeBuffer with
  | [] => Except.ok none
  | first :: rest => do
      let (lmids, patch) ← mergeLoop schema (first :: rest) none [] []
      Except.ok (some
        { baseCookie := first.pokeStart.baseCookie
          pullResponse :=
            { lastMutationIDChanges := lmids
              patch := patch
              cookie := ((first :: rest).getLast (List.cons_ne_nil first rest)).pokeStart.cookie } })

/-- All row patches of one part translate without throwing (every referenced
table is in the schema and every primary-key value is primitive). -/
def partRowsOk (schema : Schema) (part : PokePartBody) : Bool :=
  (part.rowsPatch.getD []).all
    (fun op => (rowsPatchOpToReplicachePatchOp op schema).isOk)

/-- All row patches of one accumulator translate without throwing. -/
def accRowsOk (schema : Schema) (acc : PokeAccumulator) : Bool :=
  acc.parts.all (partRowsOk schema)

/-- The cookie-gap predicate over the buffer, as the code walks it: some
accumulator carries a (non-null) `baseCookie` strictly greater than the
immediately preceding accumulator's `cookie` (the accumulator before the
first one being `prev`). -/
def gapChainB (prev : Option PokeStartBody) : List PokeAccumulator → Bool
  | [] => false
  | a :: t => gapCheck prev a || gapChainB (some a.pokeStart) t

theorem exists_ok_of_isOk {ε α : Type} {e : Except ε α} (h : e.isOk = true) :
    ∃ r, e = Except.ok r := by
  cases e with
  | ok r => exact ⟨r, rfl⟩
  | error _ => simp [Except.isOk, Except.toBool] at h

theorem isOk_of_eq_ok {ε α : Type} {e : Except ε α} {r : α} (h : e = Except.ok r) :
    e.isOk = true := by
  subst h
  rfl

theorem mapME_ok_of_all {α β : Type} (f : α → Except String β) (l : List α)
    (h : l.all (fun a => (f a).isOk) = true) : ∃ r, mapME f l = Except.ok r := by
  induction l with
  | nil => exact ⟨[], rfl⟩
  | cons a t ih =>
      simp only [List.all_cons, Bool.and_eq_true] at h
      obtain ⟨b, hb⟩ := exists_ok_of_isOk h.1
      obtain ⟨r, hr⟩ := ih h.2
      refine ⟨b :: r, ?_⟩
      simp [mapME, hb, hr, except_bind_ok]

theorem translatePart_ok (schema : Schema) (part : PokePartBody)
    (h : partRowsOk schema part = true) :
    ∃ l, translatePart schema part = Except.ok l := by
  unfold partRowsOk at h
  obtain ⟨r, hr⟩ := mapME_ok_of_all (fun op => rowsPatchOpToReplicachePatchOp op schema) _ h
  simp only [translatePart, hr, except_bind_ok]
  exact ⟨_, rfl⟩

theorem accPatches_ok (schema : Schema) (acc : PokeAccumulator)
    (h : accRowsOk schema acc = true) :
    ∃ l, accPatches schema acc = Except.ok l := by
  unfold accRowsOk at h
  have hall : acc.parts.all (fun p => (translatePart schema p).isOk) = true := by
    rw [List.all_eq_true] at h ⊢
    intro p hp
    obtain ⟨l, hl⟩ := translatePart_ok schema p (h p hp)
    exact isOk_of_eq_ok hl
  obtain ⟨r, hr⟩ := mapME_ok_of_all (translatePart schema) _ hall
  simp only [accPatches, hr, except_bind_ok]
  exact ⟨_, rfl⟩

theorem mergeLoop_isOk_iff (schema : Schema) (accs : List PokeAccumulator) :
    ∀ (prev : Option PokeStartBody) (lm : List (String × Nat))
      (pt : List PatchOperationInternal),
      accs.all (accRowsOk schema) = true →
      ((∃ r, mergeLoop schema accs prev lm pt = Except.ok r) ↔
        gapChainB prev accs = false) := by
  induction accs with
  | nil =>
      intro prev lm pt _
      simp [mergeLoop, gapChainB]
  | cons a t ih =>
      intro prev lm pt hok
      simp only [List.all_cons, Bool.and_eq_true] at hok
      by_cases hg : gapCheck prev a = true
      · simp [mergeLoop, hg, gapChainB]
      · have hg' : gapCheck prev a = false := by
          cases hgc : gapCheck prev a
          · rfl
          · exact absurd hgc hg
        obtain ⟨ps, hps⟩ := accPatches_ok schema a hok.1
        have := ih (some a.pokeStart) (accLMIDFold lm a) (pt ++ ps) hok.2
        simp only [mergeLoop, hg', Bool.false_eq_true, if_false, gapChainB,
          Bool.or_eq_false_iff, hps]
        simpa using this

/-- **C4**: For every non-empty poke buffer, `mergePokes` throws exactly when
some accumulator's (non-null) `baseCookie` is greater than the immediately
preceding accumulator's `cookie`; when it does not throw, it returns a poke
whose `baseCookie` is the first buffered poke's `baseCookie` and whose
`cookie` is the last buffered poke's `cookie`.  (The well-formedness
hypothesis excludes the unrelated JS exceptions of row-patch translation:
rows patches referencing tables absent from the schema or non-primitive key
values.) -/
theorem mergePokes_gap_and_endpoints (first : PokeAccumulator)
    (rest : List PokeAccumulator) (schema : Schema)
    (hok : (first :: rest).all (accRowsOk schema) = true) :
    (gapChainB none (first :: rest) = true →
      ∃ e, mergePokes (first :: rest) schema = Except.error e)
  ∧ (gapChainB none (first :: rest) = false →
      ∃ m, mergePokes (first :: rest) schema = Except.ok (some m) ∧
        m.baseCookie = first.pokeStart.baseCookie ∧
        m.pullResponse.cookie =
          ((first :: rest).getLast (List.cons_ne_nil first rest)).pokeStart.cookie) := by
  constructor
  · intro hgap
    cases hml : mergeLoop schema (first :: rest) none [] [] with
    | ok r =>
        have := (mergeLoop_isOk_iff schema (first :: rest) none [] [] hok).mp ⟨r, hml⟩
        rw [this] at hgap
        exact absurd hgap (by simp)
    | error e =>
        refine ⟨e, ?_⟩
        simp [mergePokes, hml, except_bind_error]
  · intro hgap
    obtain ⟨r, hml⟩ :=
      (mergeLoop_isOk_iff schema (first :: rest) none [] [] hok).mpr hgap
    obtain ⟨lmids, patch⟩ := r
    refine ⟨{ baseCookie := first.pokeStart.baseCookie
              pullResponse :=
                { lastMutationIDChanges := lmids
                  patch := patch
                  cookie := ((first :: rest).getLast
                      (List.cons_ne_nil first rest)).pokeStart.cookie } },
      ?_, rfl, rfl⟩
    simp [mergePokes, hml, except_bind_ok]

/-- Witness for C4 at a concrete two-poke buffer with a well-formed chain:
the merged poke spans from the first base cookie to the last cookie. -/
theorem mergePokes_gap_and_endpoints_witness :
    ∃ m, mergePokes
        [ { pokeStart := { pokeID := ("p1"), baseCookie := some ("c0"), cookie := ("c1") }
            parts := [ { pokeID := ("p1"),
                         lastMutationIDChanges := some [(("cl1"), 7)] } ] },
          { pokeStart := { pokeID := ("p2"), baseCookie := some ("c1"), cookie := ("c2") }
            parts := [] } ]
        { tables := [] } = Except.ok (some m) ∧
      m.baseCookie = some ("c0") ∧ m.pullResponse.cookie = ("c2") := by
  obtain ⟨m, hm, hb, hc⟩ :=
    (mergePokes_gap_and_endpoints
      { pokeStart := { pokeID := ("p1"), baseCookie := some ("c0"), cookie := ("c1") }
        parts := [ { pokeID := ("p1"),
                     lastMutationIDChanges := some [(("cl1"), 7)] } ] }
      [ { pokeStart := { pokeID := ("p2"), baseCookie := some ("c1"), cookie := ("c2") }
          parts := [] } ]
      { tables := [] } (by rfl)).2 (by rfl)
  exact ⟨m, hm, hb, hc⟩

/-! ## The `PokeHandler` accumulation state machine (context.ts) -/

/-- The accumulation state of `PokeHandler`: the poke currently being
received, and the buffer of completed pokes awaiting the next frame. -/
structure PokeHandlerState where
  receivingPoke : Option PokeAccumulator
  pokeBuffer : List PokeAccumulator

/-- `PokeHandler.#handlePokeError` followed by `#clear`: resets the
receiving poke and empties the buffer; the returned flag records that the
`onPokeError` callback was invoked. -/
def handlePokeError (_st : PokeHandlerState) : PokeHandlerState × Bool :=
  ({ receivingPoke := none, pokeBuffer := [] }, true)

/-- `PokeHandler.handlePokeStart`: starting a poke while another is still
being received is a protocol error; otherwise begin a fresh accumulator. -/
def handlePokeStart (st : PokeHandlerState) (pokeStart : PokeStartBody) :
    PokeHandlerState × Bool :=
  match st.receivingPoke with
  | some _ => handlePokeError st
  | none =>
      ({ receivingPoke := some { pokeStart := pokeStart, parts := [] }
         pokeBuffer := st.pokeBuffer }, false)

/-- **C10**: If `handlePokeStart` is invoked while a previous poke is still
being received, the handler discards the in-progress poke and all buffered
pokes (the resulting state is empty), invokes the `onPokeError` callback
(the flag is `true`), and does not begin accumulating the new poke (the
receiving slot is `none`, not the fresh accumulator). -/
theorem handlePokeStart_while_receiving (st : PokeHandlerState)
    (pokeStart : PokeStartBody) (acc : PokeAccumulator)
    (h : st.receivingPoke = some acc) :
    handlePokeStart st pokeStart = ({ receivingPoke := none, pokeBuffer := [] }, true) := by
  simp [handlePokeStart, h, handlePokeError]

/-- Witness for C10 at a concrete state mid-receive with a non-empty
buffer. -/
theorem handlePokeStart_while_receiving_witness :
    handlePokeStart
      { receivingPoke := some
          { pokeStart := { pokeID := ("a"), baseCookie := none, cookie := ("c1") }
            parts := [] }
        pokeBuffer := [ { pokeStart := { pokeID := ("b"), baseCookie := none, cookie := ("c2") }
                          parts := [] } ] }
      { pokeID := ("z"), baseCookie := some ("c2"), cookie := ("c3") } =
      ({ receivingPoke := none, pokeBuffer := [] }, true) :=
  handlePokeStart_while_receiving _ _
    { pokeStart := { pokeID := ("a"), baseCookie := none, cookie := ("c1") }
      parts := [] } rfl

/-! ## Claim C1: merged-vs-sequential poke application

The replicache side (the consumer of `PokeInternal`) is not part of the
source snapshot, so the state a poke acts on is modelled from the spec. -/

/-- Modelled from the spec: the client state a poke acts on (§4.4 Apply /
§6 wire protocol).  A poke (a) assigns `lastMutationIDChanges` into the
per-client last-mutation-id map, (b) applies its patch operations in order
to the key-value cache, and (c) advances the cookie to the poke's cookie.
The last-mutation-id map is embedded as a function (JS map semantics). -/
structure ClientState where
  lastMutationIDs : String → Option Nat
  kv : List (String × JSVal)
  cookie : Option String

/-- Applying one replicache patch operation to the key-value cache
(modelled from the spec's tagged variants `put | del | clear | update`;
`update` merges the partial row over the existing object and keeps only the
constrained columns when a constraint is present). -/
def applyOp (kv : List (String × JSVal)) : PatchOperationInternal → List (String × JSVal)
  | PatchOperationInternal.put key value => recordSet kv key value
  | PatchOperationInternal.del key => kv.filter (fun p => !(p.1 == key))
  | PatchOperationInternal.clear => []
  | PatchOperationInternal.update key merge constrain =>
      let baseFields :=
        match kv.lookup key with
        | some (JSVal.obj fields) => fields
        | _ => []
      let merged := (merge.getD []).foldl (fun f q => recordSet f q.1 q.2) baseFields
      let constrained :=
        match constrain with
        | none => merged
        | some ks => merged.filter (fun p => ks.contains p.1)
      recordSet kv key (JSVal.obj constrained)

/-- Setting one client's last-mutation-id. -/
def setLMID (f : String → Option Nat) (k : String) (v : Nat) : String → Option Nat :=
  fun k' => if k = k' then some v else f k'

/-- Assigning a record of last-mutation-id changes into the map, in entry
order. -/
def applyLMIDChanges (f : String → Option Nat) (l : List (String × Nat)) :
    String → Option Nat :=
  l.foldl (fun f kv => setLMID f kv.1 kv.2) f

/-- Applying one (merged) `PokeInternal` to the client state. -/
def applyPokeInternal (st : ClientState) (p : PokeInternal) : ClientState :=
  { lastMutationIDs :=
      applyLMIDChanges st.lastMutationIDs p.pullResponse.lastMutationIDChanges
    kv := p.pullResponse.patch.foldl applyOp st.kv
    cookie := some p.pullResponse.cookie }

/-- Applying the buffered pokes one at a time, in order: each accumulator is
turned into a poke by `mergePokes` on the singleton buffer (as
`#processPokesForFrame` does when a poke is the only one of its frame) and
applied. -/
def applyPokesSequentially (schema : Schema) :
    ClientState → List PokeAccumulator → Except String ClientState
  | st, [] => Except.ok st
  | st, acc :: rest => do
      let m ← mergePokes [acc] schema
      match m with
      | none => applyPokesSequentially schema st rest
      | some p => applyPokesSequentially schema (applyPokeInternal st p) rest

/-- First-or-second choice on options (strict `orElse`). -/
def orO {α : Type} : Option α → Option α → Option α
  | some v, _ => some v
  | none, d => d

theorem orO_none_right {α : Type} (a : Option α) : orO a none = a := by
  cases a <;> rfl

/-- The value of the last entry of `l` that sets key `k` (last-writer-wins
on a plain entry list). -/
def lastVal (l : List (String × Nat)) (k : String) : Option Nat :=
  l.foldl (fun r p => if p.1 = k then some p.2 else r) none

/-- Folding `recordSet` over an entry list. -/
def setAll (m : List (String × Nat)) (l : List (String × Nat)) : List (String × Nat) :=
  l.foldl (fun m kv => recordSet m kv.1 kv.2) m

/-- The `lastMutationIDChanges` entries of one part / accumulator / buffer,
concatenated in order. -/
def partEntries (p : PokePartBody) : List (String × Nat) :=
  p.lastMutationIDChanges.getD []

def accEntries (a : PokeAccumulator) : List (String × Nat) :=
  (a.parts.map partEntries).flatten

def concatEntries (accs : List PokeAccumulator) : List (String × Nat) :=
  (accs.map accEntries).flatten

theorem lastVal_foldl_init (t : List (String × Nat)) (k : String) (i : Option Nat) :
    t.foldl (fun r p => if p.1 = k then some p.2 else r) i = orO (lastVal t k) i := by
  induction t generalizing i with
  | nil => cases i <;> rfl
  | cons p t ih =>
      simp only [List.foldl_cons, lastVal]
      rw [ih, ih]
      by_cases h : p.1 = k
      · simp only [h, if_pos rfl]
        cases lastVal t k <;> rfl
      · simp [h, orO_none_right]

theorem lastVal_cons (p : String × Nat) (t : List (String × Nat)) (k : String) :
    lastVal (p :: t) k = orO (lastVal t k) (if p.1 = k then some p.2 else none) := by
  simp only [lastVal, List.foldl_cons]
  exact lastVal_foldl_init t k _

theorem lastVal_append (l₁ l₂ : List (String × Nat)) (k : String) :
    lastVal (l₁ ++ l₂) k = orO (lastVal l₂ k) (lastVal l₁ k) := by
  simp only [lastVal, List.foldl_append]
  exact lastVal_foldl_init l₂ k _

theorem orO_assoc {α : Type} (a b c : Option α) :
    orO (orO a b) c = orO a (orO b c) := by
  cases a <;> cases b <;> rfl

theorem applyLMIDChanges_apply (l : List (String × Nat)) (f : String → Option Nat)
    (k : String) :
    applyLMIDChanges f l k = orO (lastVal l k) (f k) := by
  induction l generalizing f with
  | nil => rfl
  | cons p t ih =>
      simp only [applyLMIDChanges, List.foldl_cons] at ih ⊢
      rw [ih, lastVal_cons, orO_assoc]
      by_cases h : p.1 = k
      · simp [h, setLMID, orO]
      · have h' : ¬p.1 = k := h
        simp [h, setLMID, orO, h']

/-- Keys of an association list are pairwise distinct. -/
def keysNodup {α : Type} (m : List (String × α)) : Prop :=
  (m.map Prod.fst).Nodup

theorem recordSet_keys {α : Type} (m : List (String × α)) (k : String) (v : α) :
    (recordSet m k v).map Prod.fst =
      if k ∈ m.map Prod.fst then m.map Prod.fst else m.map Prod.fst ++ [k] := by
  induction m with
  | nil => simp [recordSet]
  | cons p t ih =>
      obtain ⟨k₀, v₀⟩ := p
      by_cases h : k₀ = k
      · subst h
        simp [recordSet]
      · have hrs : recordSet ((k₀, v₀) :: t) k v = (k₀, v₀) :: recordSet t k v := by
          simp [recordSet, h]
        rw [hrs]
        simp only [List.map_cons, ih]
        have hk : ¬k = k₀ := fun he => h he.symm
        by_cases hc : k ∈ t.map Prod.fst
        · simp [hc, hk]
        · simp [hc, hk]

theorem keysNodup_recordSet {α : Type} (m : List (String × α)) (k : String) (v : α)
    (h : keysNodup m) : keysNodup (recordSet m k v) := by
  unfold keysNodup at h ⊢
  rw [recordSet_keys]
  by_cases hc : k ∈ m.map Prod.fst
  · simp [hc, h]
  · simp only [hc, if_false]
    rw [List.nodup_append]
    refine ⟨h, List.nodup_singleton k, ?_⟩
    intro a ha hb
    simp only [List.mem_singleton] at hb
    subst hb
    exact hc ha

theorem lastVal_of_not_mem (l : List (String × Nat)) (k : String)
    (h : ¬k ∈ l.map Prod.fst) : lastVal l k = none := by
  induction l with
  | nil => rfl
  | cons p t ih =>
      rw [lastVal_cons]
      simp only [List.map_cons, List.mem_cons] at h
      push_neg at h
      have h1 : ¬p.1 = k := fun he => h.1 he.symm
      simp [h1, ih h.2, orO]

theorem lastVal_recordSet (m : List (String × Nat)) (k₁ k : String) (v₁ : Nat)
    (hm : keysNodup m) :
    lastVal (recordSet m k₁ v₁) k = if k₁ = k then some v₁ else lastVal m k := by
  induction m with
  | nil =>
      have hrs : recordSet ([] : List (String × Nat)) k₁ v₁ = [(k₁, v₁)] := rfl
      rw [hrs, lastVal_cons]
      by_cases h : k₁ = k <;> simp [h, lastVal, orO]
  | cons p t ih =>
      obtain ⟨k₀, v₀⟩ := p
      unfold keysNodup at hm
      simp only [List.map_cons, List.nodup_cons] at hm
      by_cases h0 : k₀ = k₁
      · subst h0
        have hrs : recordSet ((k₀, v₀) :: t) k₀ v₁ = (k₀, v₁) :: t := by
          simp [recordSet]
        rw [hrs, lastVal_cons, lastVal_cons]
        by_cases hk : k₀ = k
        · subst hk
          have hnone : lastVal t k₀ = none := lastVal_of_not_mem t k₀ hm.1
          simp [hnone, orO]
        · simp [hk]
      · have hrs : recordSet ((k₀, v₀) :: t) k₁ v₁ = (k₀, v₀) :: recordSet t k₁ v₁ := by
          simp [recordSet, h0]
        rw [hrs, lastVal_cons, lastVal_cons, ih hm.2]
        by_cases hk : k₁ = k
        · subst hk
          simp [orO]
        · simp [hk]

theorem keysNodup_setAll (l m : List (String × Nat)) (hm : keysNodup m) :
    keysNodup (setAll m l) := by
  induction l generalizing m with
  | nil => exact hm
  | cons p t ih =>
      simp only [setAll, List.foldl_cons]
      exact ih _ (keysNodup_recordSet m p.1 p.2 hm)

theorem lastVal_setAll (l m : List (String × Nat)) (k : String) (hm : keysNodup m) :
    lastVal (setAll m l) k = orO (lastVal l k) (lastVal m k) := by
  induction l generalizing m with
  | nil => rfl
  | cons p t ih =>
      simp only [setAll, List.foldl_cons] at ih ⊢
      rw [ih _ (keysNodup_recordSet m p.1 p.2 hm),
        lastVal_recordSet m p.1 k p.2 hm, lastVal_cons, orO_assoc]
      by_cases h : p.1 = k <;> simp [h, orO]

theorem lookup_eq_lastVal (l : List (String × Nat)) (k : String) (h : keysNodup l) :
    l.lookup k = lastVal l k := by
  induction l with
  | nil => rfl
  | cons p t ih =>
      obtain ⟨k₀, v₀⟩ := p
      unfold keysNodup at h
      simp only [List.map_cons, List.nodup_cons] at h
      rw [lastVal_cons]
      by_cases hk : k₀ = k
      · subst hk
        have : lastVal t k₀ = none := lastVal_of_not_mem t k₀ h.1
        simp [List.lookup, this, orO]
      · have hne : (k == k₀) = false := beq_string_eq_false (fun he => hk he.symm)
        simp only [List.lookup, hne, ih h.2, hk, if_neg hk]
        exact (orO_none_right _).symm

theorem accLMIDFold_eq_setAll (a : PokeAccumulator) (lm : List (String × Nat)) :
    accLMIDFold lm a = setAll lm (accEntries a) := by
  show a.parts.foldl (fun m part => setAll m (partEntries part)) lm =
    setAll lm (accEntries a)
  unfold accEntries
  induction a.parts generalizing lm with
  | nil => rfl
  | cons p t ih =>
      simp only [List.foldl_cons, List.map_cons, List.flatten_cons]
      rw [ih]
      simp [setAll, List.foldl_append]

/-- Characterization of the merge loop on success: the merged
`lastMutationIDChanges` is the fold of all entries and the merged patch is
the in-order concatenation of the per-accumulator translations. -/
theorem mergeLoop_char (schema : Schema) (accs : List PokeAccumulator) :
    ∀ (prev : Option PokeStartBody) (lm : List (String × Nat))
      (pt : List PatchOperationInternal) (lm' : List (String × Nat))
      (pt' : List PatchOperationInternal),
      mergeLoop schema accs prev lm pt = Except.ok (lm', pt') →
      lm' = setAll lm (concatEntries accs) ∧
        ∃ pss, mapME (accPatches schema) accs = Except.ok pss ∧
          pt' = pt ++ pss.flatten := by
  induction accs with
  | nil =>
      intro prev lm pt lm' pt' h
      simp only [mergeLoop, Except.ok.injEq, Prod.mk.injEq] at h
      refine ⟨by simp [h.1.symm, setAll, concatEntries], [], rfl, by simp [h.2.symm]⟩
  | cons a t ih =>
      intro prev lm pt lm' pt' h
      by_cases hg : gapCheck prev a = true
      · simp [mergeLoop, hg] at h
      · have hg' : gapCheck prev a = false := by
          cases hgc : gapCheck prev a
          · rfl
          · exact absurd hgc hg
        simp only [mergeLoop, hg', Bool.false_eq_true, if_false] at h
        cases hap : accPatches schema a with
        | error e => rw [hap] at h; exact absurd h (by simp [except_bind_error])
        | ok psa =>
            rw [hap, except_bind_ok] at h
            obtain ⟨hlm, pst, hpst, hpt⟩ := ih (some a.pokeStart)
              (accLMIDFold lm a) (pt ++ psa) lm' pt' h
            refine ⟨?_, psa :: pst, ?_, ?_⟩
            · rw [hlm, accLMIDFold_eq_setAll]
              simp [concatEntries, setAll, List.foldl_append]
            · simp [mapME, hap, hpst, except_bind_ok]
            · rw [hpt]
              simp


theorem mergePokes_singleton (schema : Schema) (a : PokeAccumulator)
    (psa : List PatchOperationInternal) (hap : accPatches schema a = Except.ok psa) :
    mergePokes [a] schema = Except.ok (some
      { baseCookie := a.pokeStart.baseCookie
        pullResponse :=
          { lastMutationIDChanges := setAll [] (accEntries a)
            patch := psa
            cookie := a.pokeStart.cookie } }) := by
  have hgap : gapCheck none a = false := rfl
  simp only [mergePokes, mergeLoop, hgap, Bool.false_eq_true, if_false, hap,
    except_bind_ok, List.nil_append, accLMIDFold_eq_setAll]
  rfl

theorem foldl_cookie (l : List PokeAccumulator) (a : PokeAccumulator) (i : Option String) :
    (a :: l).foldl (fun _ x => some x.pokeStart.cookie) i =
      some (((a :: l).getLast (List.cons_ne_nil a l)).pokeStart.cookie) := by
  induction l generalizing a i with
  | nil => rfl
  | cons b t ih =>
      have h1 : (a :: b :: t).foldl (fun _ x => some x.pokeStart.cookie) i =
          (b :: t).foldl (fun _ x => some x.pokeStart.cookie) (some a.pokeStart.cookie) := rfl
      rw [h1, ih b _]
      rw [List.getLast_cons (List.cons_ne_nil b t)]

/-- Sequential application characterized: the final last-mutation-id map is
the last-writer-wins fold of all buffered entries over the initial map, the
key-value cache gets all translated patches in order, and the cookie ends at
the last poke's cookie. -/
theorem applySeq_char (schema : Schema) (accs : List PokeAccumulator) :
    ∀ (st : ClientState) (pss : List (List PatchOperationInternal)),
      mapME (accPatches schema) accs = Except.ok pss →
      applyPokesSequentially schema st accs = Except.ok
        { lastMutationIDs :=
            fun k => orO (lastVal (concatEntries accs) k) (st.lastMutationIDs k)
          kv := pss.flatten.foldl applyOp st.kv
          cookie := accs.foldl (fun _ a => some a.pokeStart.cookie) st.cookie } := by
  induction accs with
  | nil =>
      intro st pss h
      simp only [mapME, Except.ok.injEq] at h
      subst h
      have hl : (fun k => orO (lastVal (concatEntries []) k) (st.lastMutationIDs k)) =
          st.lastMutationIDs := funext (fun k => rfl)
      simp [applyPokesSequentially, hl]
  | cons a t ih =>
      intro st pss h
      cases hap : accPatches schema a with
      | error e =>
          rw [show mapME (accPatches schema) (a :: t) = (accPatches schema a) >>=
              (fun b => (mapME (accPatches schema) t) >>= (fun r => Except.ok (b :: r)))
            from rfl, hap, except_bind_error] at h
          exact absurd h (by simp)
      | ok psa =>
          cases hmt : mapME (accPatches schema) t with
          | error e =>
              rw [show mapME (accPatches schema) (a :: t) = (accPatches schema a) >>=
                  (fun b => (mapME (accPatches schema) t) >>= (fun r => Except.ok (b :: r)))
                from rfl, hap, except_bind_ok, hmt, except_bind_error] at h
              exact absurd h (by simp)
          | ok pst =>
              rw [show mapME (accPatches schema) (a :: t) = (accPatches schema a) >>=
                  (fun b => (mapME (accPatches schema) t) >>= (fun r => Except.ok (b :: r)))
                from rfl, hap, except_bind_ok, hmt, except_bind_ok] at h
              simp only [Except.ok.injEq] at h
              subst h
              have hstep : applyPokesSequentially schema st (a :: t) =
                  applyPokesSequentially schema (applyPokeInternal st
                    { baseCookie := a.pokeStart.baseCookie
                      pullResponse :=
                        { lastMutationIDChanges := setAll [] (accEntries a)
                          patch := psa
                          cookie := a.pokeStart.cookie } }) t := by
                rw [show applyPokesSequentially schema st (a :: t) =
                    (mergePokes [a] schema) >>= (fun m =>
                      match m with
                      | none => applyPokesSequentially schema st t
                      | some p => applyPokesSequentially schema (applyPokeInternal st p) t)
                  from rfl, mergePokes_singleton schema a psa hap, except_bind_ok]
              rw [hstep, ih _ pst hmt]
              refine congrArg Except.ok ?_
              simp only [ClientState.mk.injEq]
              refine ⟨?_, ?_, ?_⟩
              · funext k
                simp only [applyPokeInternal]
                rw [applyLMIDChanges_apply,
                  lastVal_setAll (accEntries a) [] k List.nodup_nil]
                have hnil : lastVal ([] : List (String × Nat)) k = none := rfl
                rw [hnil, orO_none_right]
                have h2 : concatEntries (a :: t) = accEntries a ++ concatEntries t := by
                  simp [concatEntries]
                rw [h2, lastVal_append, orO_assoc]
              · simp [applyPokeInternal, List.foldl_append]
              · simp [applyPokeInternal]

/-- **C1**: For every buffer of accepted pokes, applying the single merged
poke produced by `mergePokes` yields the same final client state as applying
the buffered pokes one at a time in order; the merged poke's
`lastMutationIDChanges` holds, for each client, the value from the last part
that sets it, and its patch is the concatenation of the per-part translated
patches preserving intra-part order. -/
theorem mergePokes_apply_equivalence (schema : Schema) (buf : List PokeAccumulator)
    (m : PokeInternal) (st : ClientState)
    (h : mergePokes buf schema = Except.ok (some m)) :
    applyPokesSequentially schema st buf = Except.ok (applyPokeInternal st m) ∧
    (∀ clientID, m.pullResponse.lastMutationIDChanges.lookup clientID =
      lastVal (concatEntries buf) clientID) ∧
    (∃ pss, mapME (accPatches schema) buf = Except.ok pss ∧
      m.pullResponse.patch = pss.flatten) := by
  cases buf with
  | nil => simp [mergePokes] at h
  | cons first rest =>
      rw [show mergePokes (first :: rest) schema =
          (mergeLoop schema (first :: rest) none [] []) >>= (fun r =>
            Except.ok (some
              { baseCookie := first.pokeStart.baseCookie
                pullResponse :=
                  { lastMutationIDChanges := r.1
                    patch := r.2
                    cookie := ((first :: rest).getLast
                        (List.cons_ne_nil first rest)).pokeStart.cookie } }))
        from rfl] at h
      cases hml : mergeLoop schema (first :: rest) none [] [] with
      | error e =>
          rw [hml, except_bind_error] at h
          exact absurd h (by simp)
      | ok r =>
          obtain ⟨lm', pt'⟩ := r
          rw [hml, except_bind_ok] at h
          simp only [Except.ok.injEq, Option.some.injEq] at h
          obtain ⟨hlm, pss, hpss, hpt⟩ :=
            mergeLoop_char schema (first :: rest) none [] [] lm' pt' hml
          simp only [List.nil_append] at hpt
          subst h
          refine ⟨?_, ?_, pss, hpss, by simp [hpt]⟩
          · rw [applySeq_char schema (first :: rest) st pss hpss]
            have hcookie := foldl_cookie rest first st.cookie
            have hstate :
                ({ lastMutationIDs :=
                    fun k => orO (lastVal (concatEntries (first :: rest)) k)
                      (st.lastMutationIDs k)
                   kv := pss.flatten.foldl applyOp st.kv
                   cookie := (first :: rest).foldl
                     (fun _ a => some a.pokeStart.cookie) st.cookie } : ClientState) =
                applyPokeInternal st
                  { baseCookie := first.pokeStart.baseCookie
                    pullResponse :=
                      { lastMutationIDChanges := lm'
                        patch := pt'
                        cookie := ((first :: rest).getLast
                            (List.cons_ne_nil first rest)).pokeStart.cookie } } := by
              unfold applyPokeInternal
              have hf : applyLMIDChanges st.lastMutationIDs lm' =
                  fun k => orO (lastVal (concatEntries (first :: rest)) k)
                    (st.lastMutationIDs k) := by
                funext k
                rw [applyLMIDChanges_apply, hlm,
                  lastVal_setAll (concatEntries (first :: rest)) [] k List.nodup_nil]
                have hnil : lastVal ([] : List (String × Nat)) k = none := rfl
                rw [hnil, orO_none_right]
              rw [hf, hpt, hcookie]
            rw [hstate]
          · intro clientID
            rw [hlm, lookup_eq_lastVal _ _ (keysNodup_setAll _ [] List.nodup_nil),
              lastVal_setAll _ [] _ List.nodup_nil]
            have hnil : lastVal ([] : List (String × Nat)) clientID = none := rfl
            rw [hnil, orO_none_right]

/-- Witness for C1 at a concrete two-poke buffer: the second poke overrides
the first's `lastMutationIDChanges` entry, and sequential application agrees
with applying the explicit merged poke. -/
theorem mergePokes_apply_equivalence_witness :
    applyPokesSequentially { tables := [] }
        { lastMutationIDs := fun _ => none, kv := [], cookie := none }
        [ { pokeStart := { pokeID := ("q1"), baseCookie := some ("d0"), cookie := ("d1") }
            parts := [ { pokeID := ("q1"),
                         lastMutationIDChanges := some [(("cA"), 3)] } ] },
          { pokeStart := { pokeID := ("q2"), baseCookie := some ("d1"), cookie := ("d2") }
            parts := [ { pokeID := ("q2"),
                         lastMutationIDChanges := some [(("cA"), 5)] } ] } ] =
      Except.ok (applyPokeInternal
        { lastMutationIDs := fun _ => none, kv := [], cookie := none }
        { baseCookie := some ("d0")
          pullResponse :=
            { lastMutationIDChanges := [(("cA"), 5)]
              patch := []
              cookie := ("d2") } }) :=
  (mergePokes_apply_equivalence { tables := [] } _ _ _ (by rfl)).1

/-! ## Embedding of `packages/replicache/src/connection-loop.ts` -/

/-- A completed request's record (`SendRecord` of connection-loop.ts). -/
structure SendRecord where
  duration : Nat
  ok : Bool
deriving DecidableEq

/-- The numeric fields of `ConnectionLoopDelegate` used by the delay
computation. -/
structure ConnectionLoopDelegate where
  maxConnections : Nat
  maxDelayMs : Nat
  minDelayMs : Nat
deriving DecidableEq

/-- `CONNECTION_MEMORY_COUNT` of connection-loop.ts. -/
def connectionMemoryCount : Nat := 9

/-- JS default-comparator ordering on numbers: compare the decimal string
forms lexicographically (`values.sort()` without a comparator). -/
def jsNumLeB (a b : Nat) : Bool := !(jsStrLtB (toString b) (toString a))

def jsInsert (a : Nat) : List Nat → List Nat
  | [] => [a]
  | b :: t => if jsNumLeB a b then a :: b :: t else b :: jsInsert a t

/-- `values.sort()` on a JS number array: sorts by the string forms. -/
def jsSortNat (l : List Nat) : List Nat := l.foldr jsInsert []

/-- `median` of connection-loop.ts: the middle element of the
default-sorted array (the mean of the two middle elements for even length).
It is only ever invoked on non-empty arrays (on the empty array JS would
produce `NaN`, which the caller's `| 0` turns into `0`, the value returned
here). -/
def median (values : List Nat) : ℚ :=
  let sorted := jsSortNat values
  let half := sorted.length / 2
  if sorted.length % 2 = 1 then ((sorted.getD half 0 : Nat) : ℚ)
  else (((sorted.getD (half - 1) 0 : Nat) : ℚ) + ((sorted.getD half 0 : Nat) : ℚ)) / 2

/-- `x | 0` on a non-negative JS number: truncation to an integer. -/
def ratFloorToNat (q : ℚ) : Nat := (Int.floor q).toNat

/-- `didLastSendRequestFail` of connection-loop.ts. -/
def didLastSendRequestFail (sendRecords : List SendRecord) : Bool :=
  match sendRecords.getLast? with
  | some r => !r.ok
  | none => false

/-- `computeDelayAndUpdateDurations` of connection-loop.ts.  The in-place
`while shift()` prune is embedded as dropping the excess leading records;
the function returns the new delay together with the (possibly pruned)
record list. -/
def computeDelayAndUpdateDurations (delay : Nat) (delegate : ConnectionLoopDelegate)
    (sendRecords : List SendRecord) : Nat × List SendRecord :=
  match sendRecords.getLast? with
  | none => (delay, sendRecords)
  | some last =>
      if !last.ok then
        ((if delay = 0 then delegate.minDelayMs else delay * 2), sendRecords)
      else
        let previousOk :=
          ((sendRecords[sendRecords.length - 2]?).map SendRecord.ok).getD true
        let pruned :=
          if sendRecords.length > 1 then
            sendRecords.drop (sendRecords.length - connectionMemoryCount)
          else sendRecords
        if sendRecords.length > 1 && !previousOk then
          (delegate.minDelayMs, pruned)
        else
          let med := median ((pruned.filter SendRecord.ok).map SendRecord.duration)
          (ratFloorToNat (med / (delegate.maxConnections : ℚ)), pruned)

/-- The delay update performed by one iteration of `ConnectionLoop.run`:
recomputed only when requests overlap (`counter > 0`) or the last request
failed; reset to `0` otherwise. -/
def runDelay (delegate : ConnectionLoopDelegate) (counter : Nat) (delay : Nat)
    (sendRecords : List SendRecord) : Nat × List SendRecord :=
  if counter > 0 || didLastSendRequestFail sendRecords then
    computeDelayAndUpdateDurations delay delegate sendRecords
  else (0, sendRecords)

/-- The clamp applied in `ConnectionLoop.run`
(`Math.min(maxDelayMs, Math.max(minDelayMs, delay))`). -/
def clampedDelay (delegate : ConnectionLoopDelegate) (delay : Nat) : Nat :=
  min delegate.maxDelayMs (max delegate.minDelayMs delay)

/-- Clamp on rationals, for stating the claim's formula. -/
def clampedDelayQ (delegate : ConnectionLoopDelegate) (delay : ℚ) : ℚ :=
  min (delegate.maxDelayMs : ℚ) (max (delegate.minDelayMs : ℚ) delay)

/-- Numeric (value-ordered) insertion, for the statistical median of the
claim. -/
def numInsert (a : Nat) : List Nat → List Nat
  | [] => [a]
  | b :: t => if a ≤ b then a :: b :: t else b :: numInsert a t

def numSortNat (l : List Nat) : List Nat := l.foldr numInsert []

/-- The statistical median (numeric order). -/
def numMedian (values : List Nat) : ℚ :=
  let sorted := numSortNat values
  let half := sorted.length / 2
  if sorted.length % 2 = 1 then ((sorted.getD half 0 : Nat) : ℚ)
  else (((sorted.getD (half - 1) 0 : Nat) : ℚ) + ((sorted.getD half 0 : Nat) : ℚ)) / 2

/-- The durations of the most recent at most 9 successful sends. -/
def lastNineOkDurations (sendRecords : List SendRecord) : List Nat :=
  let okDurations := (sendRecords.filter SendRecord.ok).map SendRecord.duration
  okDurations.drop (okDurations.length - 9)

/-- The delay formula as claim C7 words it: the median of the durations of
the most recent at most 9 successful sends, divided by `maxConnections`,
clamped to `[minDelayMs, maxDelayMs]`. -/
def claimDelayC7 (delegate : ConnectionLoopDelegate) (sendRecords : List SendRecord) : ℚ :=
  clampedDelayQ delegate
    (numMedian (lastNineOkDurations sendRecords) / (delegate.maxConnections : ℚ))

/-- **C7 (counterexample)**: a send that follows a failed request takes the
exponential-backoff branch, not the median formula: with records
`[{duration 100, ok}, {duration 50, failed}]`, previous delay `30`,
`maxConnections = 1`, `minDelayMs = 30`, `maxDelayMs = 60000`, the loop
computes `clamp(30 * 2) = 60`, while the claim's formula gives
`clamp(median [100] / 1) = 100`. -/
theorem connectionLoopDelay_counterexample :
    didLastSendRequestFail
        [ { duration := 100, ok := true }, { duration := 50, ok := false } ] = true ∧
    clampedDelay { maxConnections := 1, maxDelayMs := 60000, minDelayMs := 30 }
        (runDelay { maxConnections := 1, maxDelayMs := 60000, minDelayMs := 30 } 0 30
          [ { duration := 100, ok := true }, { duration := 50, ok := false } ]).1 = 60 ∧
    claimDelayC7 { maxConnections := 1, maxDelayMs := 60000, minDelayMs := 30 }
        [ { duration := 100, ok := true }, { duration := 50, ok := false } ] = 100 ∧
    ((60 : ℚ) ≠ (100 : ℚ)) := by
  refine ⟨rfl, ?_, ?_, by norm_num⟩
  · rfl
  · norm_num [claimDelayC7, clampedDelayQ, numMedian, lastNineOkDurations, numSortNat,
      numInsert, SendRecord.ok, List.filter]

/-- **C7 (amended)**: When a send overlaps other in-flight requests
(`counter > 0`), the most recent completed send succeeded, and the send
before it (if any) also succeeded, the computed inter-send delay is the
code's median — the string-sorted middle value — of the successful
durations among the most recent at most 9 send records, divided by
`maxConnections` and truncated, clamped to `[minDelayMs, maxDelayMs]`.
When the most recent completed send failed, the delay instead follows
exponential backoff: `minDelayMs` if the previous delay was `0`, else twice
the previous delay, clamped. -/
theorem connectionLoopDelay_amended (delegate : ConnectionLoopDelegate)
    (counter delay : Nat) (sendRecords : List SendRecord) (last : SendRecord)
    (hlast : sendRecords.getLast? = some last) :
    (counter > 0 → last.ok = true →
      (((sendRecords[sendRecords.length - 2]?).map SendRecord.ok).getD true = true) →
      clampedDelay delegate (runDelay delegate counter delay sendRecords).1 =
        clampedDelay delegate
          (ratFloorToNat
            (median
              (((sendRecords.drop (sendRecords.length - connectionMemoryCount)).filter
                  SendRecord.ok).map SendRecord.duration) /
              (delegate.maxConnections : ℚ))))
  ∧ (last.ok = false →
      clampedDelay delegate (runDelay delegate counter delay sendRecords).1 =
        clampedDelay delegate (if delay = 0 then delegate.minDelayMs else delay * 2)) := by
  constructor
  · intro hc hok hprev
    have hcond : (decide (counter > 0) || didLastSendRequestFail sendRecords) = true := by
      simp [hc]
    rw [runDelay, if_pos (by simp [hc])]
    simp only [computeDelayAndUpdateDurations, hlast, hok, Bool.not_true,
      Bool.false_eq_true, if_false, hprev, Bool.not_true, Bool.and_false]
    by_cases hlen : sendRecords.length > 1
    · simp [hlen]
    · have hdrop : sendRecords.drop (sendRecords.length - connectionMemoryCount) =
          sendRecords := by
        have : sendRecords.length - connectionMemoryCount = 0 := by
          unfold connectionMemoryCount
          omega
        rw [this, List.drop_zero]
      simp [hlen, hdrop]
  · intro hfail
    have hfail' : didLastSendRequestFail sendRecords = true := by
      simp [didLastSendRequestFail, hlast, hfail]
    rw [runDelay, if_pos (by simp [hfail'])]
    simp [computeDelayAndUpdateDurations, hlast, hfail]

/-- Witness for the amended C7 at a concrete overlapping send: two
successful records of durations 100 and 200, `maxConnections = 2`. -/
theorem connectionLoopDelay_amended_witness :
    clampedDelay { maxConnections := 2, maxDelayMs := 60000, minDelayMs := 30 }
        (runDelay { maxConnections := 2, maxDelayMs := 60000, minDelayMs := 30 } 1 0
          [ { duration := 100, ok := true }, { duration := 200, ok := true } ]).1 =
      clampedDelay { maxConnections := 2, maxDelayMs := 60000, minDelayMs := 30 }
        (ratFloorToNat
          (median
            ((([ { duration := 100, ok := true },
                  { duration := 200, ok := true } ].drop
                  (([ { duration := 100, ok := true },
                      { duration := 200, ok := true } ] : List SendRecord).length -
                    connectionMemoryCount)).filter SendRecord.ok).map
              SendRecord.duration) / ((2 : Nat) : ℚ))) :=
  (connectionLoopDelay_amended { maxConnections := 2, maxDelayMs := 60000, minDelayMs := 30 }
    1 0 [ { duration := 100, ok := true }, { duration := 200, ok := true } ]
    { duration := 200, ok := true } (by rfl)).1 (by decide) (by rfl) (by rfl)

/-! ## `ConnectionLoop.close` / `ConnectionLoop.send` (connection-loop.ts)

The promise flow is embedded as a state machine: a *pending* send is one
that has incremented `sendCounter` and is awaiting the shared send
resolver; `close()` sets the closed flag and, when `sendCounter > 0`,
resolves that shared resolver with `closeError()`, which every pending send
receives (the loop's send promises never reject — they resolve to an
`{error}` value, here the outcome `failed closeError`). -/

/-- The outcome a `send()` caller observes. -/
inductive SendCallResult where
  | pending : SendCallResult
  | failed (message : String) : SendCallResult
deriving DecidableEq

/-- `closeError()` of connection-loop.ts (`new Error('Closed')`). -/
def closeErrorMessage : String := "Closed"

/-- The loop state relevant to `close`/`send`. -/
structure ConnectionLoopState where
  closed : Bool
  sendCounter : Nat
deriving DecidableEq

/-- `ConnectionLoop.close`: sets the closed flag; when sends are pending,
resolves the shared send resolver with `closeError()`, delivering the error
to each of the `sendCounter` pending sends (the returned list). -/
def connectionLoopClose (st : ConnectionLoopState) :
    ConnectionLoopState × List SendCallResult :=
  ({ closed := true, sendCounter := st.sendCounter },
   if st.sendCounter > 0 then
     List.replicate st.sendCounter (SendCallResult.failed closeErrorMessage)
   else [])

/-- `ConnectionLoop.send` up to its first await: on a closed loop it
returns `{error: closeError()}` immediately; otherwise the send becomes
pending. -/
def connectionLoopSend (st : ConnectionLoopState) :
    ConnectionLoopState × SendCallResult :=
  if st.closed then (st, SendCallResult.failed closeErrorMessage)
  else ({ closed := st.closed, sendCounter := st.sendCounter + 1 },
    SendCallResult.pending)

/-- **C8**: After `close()`, every pending send promise is resolved with the
dedicated `closeError()` error (one outcome per pending send, all equal to
`failed "Closed"`), and any later `send()` call fails the same way — the
state stays closed, so this holds for all subsequent sends. -/
theorem connectionLoopClose_rejects_pending_and_later_sends
    (st : ConnectionLoopState) :
    (connectionLoopClose st).1.closed = true ∧
    (connectionLoopClose st).2 =
      List.replicate st.sendCounter (SendCallResult.failed closeErrorMessage) ∧
    (connectionLoopSend (connectionLoopClose st).1).2 =
      SendCallResult.failed closeErrorMessage ∧
    (connectionLoopSend (connectionLoopClose st).1).1 = (connectionLoopClose st).1 := by
  refine ⟨rfl, ?_, rfl, rfl⟩
  by_cases h : st.sendCounter > 0
  · simp [connectionLoopClose, h]
  · have h0 : st.sendCounter = 0 := by omega
    simp [connectionLoopClose, h0]

/-! ## Embedding of the reflect server `handleConnection` handler -/

/-- A persisted client record (`ClientRecord` of types/client-record.ts). -/
structure ClientRecord where
  baseCookie : Option Int
  lastMutationID : Int
deriving DecidableEq

/-- A parsed connect request (the `result` of `getConnectRequest`; `userData`
carries no behaviour relevant here and is omitted). -/
structure ConnectRequest where
  clientID : String
  baseCookie : Option Int
  timestamp : Int
  lmid : Int
deriving DecidableEq

/-- Modelled from the spec: `compareVersions` of types/version.ts is not in
the snapshot; versions are integers with the distinguished minimum `⊥`
(`null`) preceding all versions (§3). -/
def compareVersions : Option Int → Option Int → Int
  | none, none => 0
  | none, some _ => -1
  | some _, none => 1
  | some a, some b => if a < b then -1 else if b < a then 1 else 0

/-- The externally visible effects of `handleConnection`. -/
inductive ConnAction where
  | sendErrorAndClose (message : String) : ConnAction
  | putClientRecord (clientID : String) (record : ClientRecord) : ConnAction
  | addConnectedClient (clientID : String) : ConnAction
  | closeOldSocket (clientID : String) : ConnAction
  | sendConnected : ConnAction
deriving DecidableEq

/-- The room state `handleConnection` reads and writes: the persisted client
records, the current version (`getVersion(storage)`, `null` when absent),
and the client ids with a registered socket (the keys of the `ClientMap`). -/
structure RoomState where
  records : List (String × ClientRecord)
  version : Option Int
  clients : List String
deriving DecidableEq

/-- `maybeOldClientStateMessage` of the handler. -/
def maybeOldClientStateMessage : String :=
  "Possibly the room was re-created without also clearing browser state? Try clearing browser state and trying again."

/-- `handleConnection` on a parsed connect request: validate `lmid` against
the stored record (`?? 0` when absent) and `baseCookie` against the current
version; on failure send an error frame and close; on success persist the
record, register the connected client, close a previously registered socket
for the same clientID if any, install the new socket, and send the
`connected` frame. -/
def handleConnection (st : RoomState) (req : ConnectRequest) :
    RoomState × List ConnAction :=
  let existingLastMutationID :=
    ((st.records.lookup req.clientID).map ClientRecord.lastMutationID).getD 0
  if req.lmid > existingLastMutationID then
    (st, [ConnAction.sendErrorAndClose
      ("Unexpected lmid. " ++ maybeOldClientStateMessage)])
  else if compareVersions req.baseCookie st.version > 0 then
    (st, [ConnAction.sendErrorAndClose
      ("Unexpected baseCookie. " ++ maybeOldClientStateMessage)])
  else
    let record : ClientRecord :=
      { baseCookie := req.baseCookie, lastMutationID := existingLastMutationID }
    let closeOld :=
      if req.clientID ∈ st.clients then [ConnAction.closeOldSocket req.clientID]
      else []
    ({ records := recordSet st.records req.clientID record
       version := st.version
       clients :=
         if req.clientID ∈ st.clients then st.clients
         else st.clients ++ [req.clientID] },
     [ConnAction.putClientRecord req.clientID record,
      ConnAction.addConnectedClient req.clientID] ++ closeOld ++
       [ConnAction.sendConnected])

/-- **C6**: For every parsed connect request, the connection is rejected
(an error frame is sent and the socket closed, nothing else happens) exactly
when the request's `lmid` exceeds the stored record's `lastMutationID`
(`0` when no record exists) or its `baseCookie` exceeds the current
version; otherwise the handler closes the previously registered socket for
the same clientID exactly when one exists, registers the new socket, and
sends a `connected` frame. -/
theorem handleConnection_validation (st : RoomState) (req : ConnectRequest) :
    ((∃ msg, (handleConnection st req).2 = [ConnAction.sendErrorAndClose msg]) ↔
      (req.lmid > ((st.records.lookup req.clientID).map ClientRecord.lastMutationID).getD 0 ∨
        compareVersions req.baseCookie st.version > 0))
  ∧ (¬(req.lmid > ((st.records.lookup req.clientID).map ClientRecord.lastMutationID).getD 0 ∨
        compareVersions req.baseCookie st.version > 0) →
      ConnAction.sendConnected ∈ (handleConnection st req).2 ∧
      ((ConnAction.closeOldSocket req.clientID ∈ (handleConnection st req).2) ↔
        req.clientID ∈ st.clients) ∧
      req.clientID ∈ (handleConnection st req).1.clients) := by
  by_cases h1 : req.lmid >
      ((st.records.lookup req.clientID).map ClientRecord.lastMutationID).getD 0
  · constructor
    · simp only [handleConnection, if_pos h1]
      constructor
      · intro _
        exact Or.inl h1
      · intro _
        exact ⟨_, rfl⟩
    · intro hn
      exact absurd (Or.inl h1) hn
  · by_cases h2 : compareVersions req.baseCookie st.version > 0
    · constructor
      · simp only [handleConnection, if_neg h1, if_pos h2]
        constructor
        · intro _
          exact Or.inr h2
        · intro _
          exact ⟨_, rfl⟩
      · intro hn
        exact absurd (Or.inr h2) hn
    · constructor
      · simp only [handleConnection, if_neg h1, if_neg h2]
        constructor
        · intro ⟨msg, hmsg⟩
          by_cases hc : req.clientID ∈ st.clients <;> simp [hc] at hmsg
        · intro hor
          cases hor with
          | inl h => exact absurd h h1
          | inr h => exact absurd h h2
      · intro _
        refine ⟨?_, ?_, ?_⟩
        · simp [handleConnection, if_neg h1, if_neg h2]
        · simp only [handleConnection, if_neg h1, if_neg h2]
          by_cases hc : req.clientID ∈ st.clients <;> simp [hc]
        · simp only [handleConnection, if_neg h1, if_neg h2]
          by_cases hc : req.clientID ∈ st.clients <;> simp [hc]

/-- Witness for C6: a concrete successful connect over an existing socket
(the old socket is closed, the new one registered, `connected` sent), by the
theorem's success branch. -/
theorem handleConnection_validation_witness :
    ConnAction.sendConnected ∈
      (handleConnection
        { records := [(("c1"), { baseCookie := some 5, lastMutationID := 4 })]
          version := some 7
          clients := [("c1")] }
        { clientID := ("c1"), baseCookie := some 6, timestamp := 0, lmid := 3 }).2 ∧
    ((ConnAction.closeOldSocket ("c1") ∈
        (handleConnection
          { records := [(("c1"), { baseCookie := some 5, lastMutationID := 4 })]
            version := some 7
            clients := [("c1")] }
          { clientID := ("c1"), baseCookie := some 6, timestamp := 0, lmid := 3 }).2) ↔
      ("c1") ∈ [("c1")]) := by
  have h := (handleConnection_validation
    { records := [(("c1"), { baseCookie := some 5, lastMutationID := 4 })]
      version := some 7
      clients := [("c1")] }
    { clientID := ("c1"), baseCookie := some 6, timestamp := 0, lmid := 3 }).2
    (by decide)
  exact ⟨h.1, h.2.1⟩

/-! ## The CVR of the view-syncer (spec-modelled)

The view-syncer's cvr.ts is not part of the source snapshot — only its test
(`view-syncer/cvr` in the repository) is.  The version algebra, flush
versioning and the query-driven `received` transition are therefore
modelled from the specification (§3, §4.1, §4.3), with the test's concrete
expectations pinning the behaviour. -/

/-- A CVR version (§3): a pair `(stateVersion, minorVersion)`; an absent
minor version is `0`. -/
structure CVRVersion where
  stateVersion : String
  minorVersion : Nat := 0
deriving DecidableEq

theorem listCharLt_irrefl (l : List Char) : listCharLt l l = false := by
  induction l with
  | nil => rfl
  | cons c t ih => simp [listCharLt, ih]

theorem jsStrLtB_irrefl (s : String) : jsStrLtB s s = false :=
  listCharLt_irrefl s.data

/-- Modelled from the spec: the §3 ordering — lexicographic on
`stateVersion`, then numeric on `minorVersion`. -/
def cvrVersionLtB (a b : CVRVersion) : Bool :=
  jsStrLtB a.stateVersion b.stateVersion ||
    (a.stateVersion == b.stateVersion && a.minorVersion < b.minorVersion)

def cvrVersionLeB (a b : CVRVersion) : Bool :=
  cvrVersionLtB a b || a == b

/-- Modelled from the spec: `nextMinor(v)` of the version algebra (§4.1). -/
def nextMinor (v : CVRVersion) : CVRVersion :=
  { stateVersion := v.stateVersion, minorVersion := v.minorVersion + 1 }

/-- The kind of updater performing a successful flush (§4.3): a
lastActive-only `CVRUpdater`, a `CVRConfigDrivenUpdater` that changed the
configuration, or a `CVRQueryDrivenUpdater` entered with a target state
version. -/
inductive UpdaterKind where
  | lastActiveOnly : UpdaterKind
  | configChange : UpdaterKind
  | queryDriven (stateVersion : String) : UpdaterKind
deriving DecidableEq

/-- Modelled from the spec: the `cvr.version` resulting from one successful
flush (§4.3.1: a lastActive-only flush "does not change `version`";
§4.3.2: a config change advances to `nextMinor`; §4.3.3: a query-driven
update advances to the target state version, or to `nextMinor` when the
state version did not advance). -/
def flushedVersion (v : CVRVersion) : UpdaterKind → CVRVersion
  | UpdaterKind.lastActiveOnly => v
  | UpdaterKind.configChange => nextMinor v
  | UpdaterKind.queryDriven s =>
      if jsStrLtB v.stateVersion s then { stateVersion := s, minorVersion := 0 }
      else nextMinor v

/-- **C3 (counterexample)**: the claim "strictly increasing" fails on a
lastActive-only flush: from version `1a9:02` (the scenario of the
'update active time' test) a successful `CVRUpdater` flush leaves the
version unchanged, so the two successive versions are not strictly
increasing. -/
theorem cvrVersion_strict_monotonicity_counterexample :
    flushedVersion { stateVersion := ("1a9"), minorVersion := 2 }
        UpdaterKind.lastActiveOnly =
      { stateVersion := ("1a9"), minorVersion := 2 } ∧
    cvrVersionLtB { stateVersion := ("1a9"), minorVersion := 2 }
      (flushedVersion { stateVersion := ("1a9"), minorVersion := 2 }
        UpdaterKind.lastActiveOnly) = false := by
  constructor
  · rfl
  · decide

theorem cvrVersionLeB_flushedVersion (v : CVRVersion) (k : UpdaterKind) :
    cvrVersionLeB v (flushedVersion v k) = true := by
  cases k with
  | lastActiveOnly => simp [cvrVersionLeB, flushedVersion]
  | configChange =>
      simp [cvrVersionLeB, cvrVersionLtB, flushedVersion, nextMinor, jsStrLtB_irrefl]
  | queryDriven s =>
      by_cases h : jsStrLtB v.stateVersion s = true
      · simp [flushedVersion, h, cvrVersionLeB, cvrVersionLtB]
      · simp only [flushedVersion, h, Bool.false_eq_true, if_false]
        simp [cvrVersionLeB, cvrVersionLtB, nextMinor, jsStrLtB_irrefl]

/-- **C3 (amended)**: across every sequence of successful flushes the
resulting `cvr.version` values are monotone non-decreasing under the §3
ordering (invariant 1); they are not strictly increasing in general, since
a lastActive-only flush leaves the version unchanged. -/
theorem cvrVersion_monotone_nondecreasing (v : CVRVersion) (ks : List UpdaterKind) :
    (List.scanl flushedVersion v ks).Chain' (fun a b => cvrVersionLeB a b = true) := by
  induction ks generalizing v with
  | nil => simp
  | cons k t ih =>
      simp only [List.scanl_cons, List.singleton_append]
      rw [List.chain'_cons']
      constructor
      · intro y hy
        have hh : (List.scanl flushedVersion (flushedVersion v k) t).head? =
            some (flushedVersion v k) := by
          cases t <;> rfl
        rw [hh] at hy
        simp only [Option.mem_def, Option.some.injEq] at hy
        subst hy
        exact cvrVersionLeB_flushedVersion v k
      · exact ih (flushedVersion v k)

/-- A row's logical identity (`RowID` of the view-syncer schema: schema,
table and primary-key values; key values are embedded as strings). -/
structure RowID where
  rowSchema : String
  table : String
  rowKey : List (String × String)
deriving DecidableEq

/-- A `RowRecord` (§3): `refCounts = none` is a tombstone. -/
structure RowRecord where
  rowVersion : String
  patchVersion : CVRVersion
  refCounts : Option (List (String × Int))
deriving DecidableEq

/-- One entry of the map passed to `received`: the row's version, the
per-query refcount deltas (a `0` delta means "still referenced, unchanged
count"), and the row contents. -/
structure ReceivedRowEntry where
  version : String
  refCounts : List (String × Int)
  contents : JSVal

/-- Modelled from the spec (§4.3.3): the new refcounts are the existing
ones (empty for a tombstone or an absent record) plus the received deltas;
entries whose count reaches `0` are removed, and a row with no remaining
entries has `refCounts = none` (§3 invariant 4). -/
def mergeRefCounts (existing : Option (List (String × Int)))
    (deltas : List (String × Int)) : Option (List (String × Int)) :=
  let base := existing.getD []
  let merged :=
    deltas.foldl (fun m qd => recordSet m qd.1 (((m.lookup qd.1).getD 0) + qd.2)) base
  let filtered := merged.filter (fun qd => !(qd.2 == 0))
  if filtered.isEmpty then none else some filtered

/-- A row is live iff some refcount entry is positive (§3). -/
def liveB : Option (List (String × Int)) → Bool
  | none => false
  | some l => l.any (fun qd => 0 < qd.2)

/-- Modelled from the spec (§4.3.3 `received`, pinned by the repository's
'desired to got' cvr test): merge the refcount deltas; set `patchVersion`
to the updater's `newVersion` when the received `rowVersion` is greater
than the stored one or the live/dead boundary crosses (a fresh record
always starts at `newVersion`), otherwise preserve the prior
`patchVersion`; emit a `put` patch for every received row that is live
after the merge (the test shows a put is emitted even for an already-live
row with unchanged version), tagged with the record's effective
`patchVersion`. -/
def receivedRow (newVersion : CVRVersion) (existing : Option RowRecord)
    (e : ReceivedRowEntry) : RowRecord × Option CVRVersion :=
  let oldCounts := existing.bind RowRecord.refCounts
  let oldLive := liveB oldCounts
  let newCounts := mergeRefCounts oldCounts e.refCounts
  let newLive := liveB newCounts
  let versionAdvanced :=
    match existing with
    | none => true
    | some r => jsStrLtB r.rowVersion e.version
  let patchVersion :=
    if versionAdvanced || (oldLive != newLive) then newVersion
    else
      match existing with
      | some r => r.patchVersion
      | none => newVersion
  let record : RowRecord :=
    { rowVersion := e.version, patchVersion := patchVersion, refCounts := newCounts }
  (record, if newLive then some patchVersion else none)

/-- The rowset state of a `CVRQueryDrivenUpdater` mid-update: the advanced
`newVersion` and the row records. -/
structure CVRRowsState where
  newVersion : CVRVersion
  rows : List (RowID × RowRecord)

/-- An emitted `put` `PatchToVersion` for a row. -/
structure RowPutPatch where
  id : RowID
  toVersion : CVRVersion
  contents : JSVal

/-- Modelled from the spec (§4.3.3): `received` processes the entries in
order, updating each row record and collecting the emitted put patches. -/
def received (st : CVRRowsState) (entries : List (RowID × ReceivedRowEntry)) :
    CVRRowsState × List RowPutPatch :=
  entries.foldl
    (fun acc ie =>
      let existing := acc.1.rows.lookup ie.1
      let rp := receivedRow acc.1.newVersion existing ie.2
      ({ newVersion := acc.1.newVersion, rows := recordSet acc.1.rows ie.1 rp.1 },
       acc.2 ++
         (match rp.2 with
          | none => []
          | some v => [{ id := ie.1, toVersion := v, contents := ie.2.contents }])))
    (st, [])

/-- **C2**: For every row processed by `received`: a fresh record is stamped
at `newVersion`; for an existing record the `patchVersion` is set to
`newVersion` exactly when the received `rowVersion` is greater than the
stored one or the live/dead boundary crosses, and is preserved otherwise;
and any emitted put patch is tagged with the record's effective
`patchVersion` (which the witness shows can be older than `newVersion` when
the row was already present at that version). -/
theorem receivedRow_patchVersion_and_put (newVersion : CVRVersion)
    (existing : Option RowRecord) (e : ReceivedRowEntry) :
    (existing = none → (receivedRow newVersion existing e).1.patchVersion = newVersion)
  ∧ (∀ r, existing = some r →
      (receivedRow newVersion existing e).1.patchVersion =
        (if (jsStrLtB r.rowVersion e.version ||
              (liveB r.refCounts != liveB (mergeRefCounts r.refCounts e.refCounts))) = true
         then newVersion else r.patchVersion))
  ∧ (∀ v, (receivedRow newVersion existing e).2 = some v →
      v = (receivedRow newVersion existing e).1.patchVersion) := by
  refine ⟨?_, ?_, ?_⟩
  · intro h
    subst h
    simp [receivedRow]
  · intro r h
    subst h
    have hbs : (some r).bind RowRecord.refCounts = r.refCounts := rfl
    by_cases hb : (jsStrLtB r.rowVersion e.version ||
        (liveB r.refCounts != liveB (mergeRefCounts r.refCounts e.refCounts))) = true
    · simp only [receivedRow, hbs] at hb ⊢
    · simp only [receivedRow, hbs] at hb ⊢
  · intro v h
    simp only [receivedRow] at h ⊢
    by_cases hl : liveB (mergeRefCounts (existing.bind RowRecord.refCounts) e.refCounts) = true
    · rw [if_pos hl] at h
      simp only [Option.some.injEq] at h
      exact h.symm
    · rw [if_neg hl] at h
      exact absurd h (by simp)

/-- Witness for C2 at the 'desired to got' scenario of the cvr test: a row
already live at version `03` with `patchVersion` `1a0` receives the same
version under a new query at `newVersion = 1aa:01`; the patch version is
preserved and the put is tagged `1a0`, older than `newVersion`. -/
theorem receivedRow_patchVersion_and_put_witness :
    (receivedRow { stateVersion := ("1aa"), minorVersion := 1 }
        (some { rowVersion := ("03")
                patchVersion := { stateVersion := ("1a0"), minorVersion := 0 }
                refCounts := some [(("twoHash"), 1)] })
        { version := ("03"), refCounts := [(("oneHash"), 1)]
          contents := JSVal.obj [] }).1.patchVersion =
      { stateVersion := ("1a0"), minorVersion := 0 } ∧
    (receivedRow { stateVersion := ("1aa"), minorVersion := 1 }
        (some { rowVersion := ("03")
                patchVersion := { stateVersion := ("1a0"), minorVersion := 0 }
                refCounts := some [(("twoHash"), 1)] })
        { version := ("03"), refCounts := [(("oneHash"), 1)]
          contents := JSVal.obj [] }).2 =
      some { stateVersion := ("1a0"), minorVersion := 0 } ∧
    cvrVersionLtB { stateVersion := ("1a0"), minorVersion := 0 }
      { stateVersion := ("1aa"), minorVersion := 1 } = true := by
  have h := (receivedRow_patchVersion_and_put
    { stateVersion := ("1aa"), minorVersion := 1 }
    (some { rowVersion := ("03")
            patchVersion := { stateVersion := ("1a0"), minorVersion := 0 }
            refCounts := some [(("twoHash"), 1)] })
    { version := ("03"), refCounts := [(("oneHash"), 1)]
      contents := JSVal.obj [] }).2.1
    { rowVersion := ("03")
      patchVersion := { stateVersion := ("1a0"), minorVersion := 0 }
      refCounts := some [(("twoHash"), 1)] } rfl
  refine ⟨?_, ?_, by decide⟩
  · rw [h]
    decide
  · rfl

theorem recordSet_of_lookup_none {κ α : Type} [DecidableEq κ]
    (m : List (κ × α)) (k : κ) (v : α) (h : m.lookup k = none) :
    recordSet m k v = m ++ [(k, v)] := by
  induction m with
  | nil => rfl
  | cons p t ih =>
      obtain ⟨k₀, v₀⟩ := p
      by_cases h0 : k₀ = k
      · subst h0
        simp [List.lookup] at h
      · have hne : (k == k₀) = false := beq_string_eq_false (fun he => h0 he.symm)
        simp only [List.lookup, hne] at h
        simp [recordSet, h0, ih h]

theorem filter_idem {α : Type} (p : α → Bool) (l : List α) :
    (l.filter p).filter p = l.filter p := by
  induction l with
  | nil => rfl
  | cons a t ih =>
      by_cases h : p a = true
      · simp [List.filter_cons, h, ih]
      · simp [List.filter_cons, h, ih]

/-- Folding all-zero refcount deltas changes nothing once zero entries are
filtered out. -/
theorem mergedFold_filter_zero (deltas : List (String × Int)) :
    ∀ m, deltas.all (fun qd => qd.2 == 0) = true →
      (deltas.foldl
          (fun m qd => recordSet m qd.1 (((m.lookup qd.1).getD 0) + qd.2)) m).filter
          (fun qd => !(qd.2 == 0)) =
        m.filter (fun qd => !(qd.2 == 0)) := by
  induction deltas with
  | nil => intro m _; rfl
  | cons qd t ih =>
      intro m hall
      simp only [List.all_cons, Bool.and_eq_true] at hall
      have hz : qd.2 = 0 := by simpa using hall.1
      simp only [List.foldl_cons]
      rw [ih _ hall.2, hz, add_zero]
      cases hlk : m.lookup qd.1 with
      | some c =>
          simp only [Option.getD_some]
          rw [recordSet_self m qd.1 c hlk]
      | none =>
          simp only [Option.getD_none]
          rw [recordSet_of_lookup_none m qd.1 0 hlk, List.filter_append]
          simp

/-- Merging all-zero deltas into already-merged refcounts is a no-op. -/
theorem mergeRefCounts_idem (oldCounts : Option (List (String × Int)))
    (deltas : List (String × Int))
    (hzero : deltas.all (fun qd => qd.2 == 0) = true) :
    mergeRefCounts (mergeRefCounts oldCounts deltas) deltas =
      mergeRefCounts oldCounts deltas := by
  have h1 := mergedFold_filter_zero deltas (oldCounts.getD []) hzero
  by_cases hF : ((oldCounts.getD []).filter (fun qd => !(qd.2 == 0))).isEmpty = true
  · have hmr : mergeRefCounts oldCounts deltas = none := by
      simp only [mergeRefCounts]
      rw [h1]
      simp [hF]
    rw [hmr]
    have h2 := mergedFold_filter_zero deltas [] hzero
    simp only [mergeRefCounts, Option.getD_none]
    rw [h2]
    rfl
  · have hmr : mergeRefCounts oldCounts deltas =
        some ((oldCounts.getD []).filter (fun qd => !(qd.2 == 0))) := by
      simp only [mergeRefCounts]
      rw [h1]
      simp [hF]
    rw [hmr]
    have h2 := mergedFold_filter_zero deltas
      ((oldCounts.getD []).filter (fun qd => !(qd.2 == 0))) hzero
    simp only [mergeRefCounts, Option.getD_some]
    rw [h2, filter_idem]
    simp [hF]

/-- Re-receiving over a record whose version already matches and whose
refcounts absorb the deltas reproduces the record and its patch. -/
theorem receivedRow_stable' (nv : CVRVersion) (rec : RowRecord) (e : ReceivedRowEntry)
    (hrv : rec.rowVersion = e.version)
    (hrc : mergeRefCounts rec.refCounts e.refCounts = rec.refCounts) :
    receivedRow nv (some rec) e =
      (rec, if liveB rec.refCounts = true then some rec.patchVersion else none) := by
  obtain ⟨rv, pv, rc⟩ := rec
  simp only at hrv hrc
  subst hrv
  simp only [receivedRow, Option.some_bind, hrc, jsStrLtB_irrefl, bne_self_eq_false,
    Bool.or_self, Bool.false_eq_true, if_false]

/-- Re-receiving a row with zero deltas reproduces the same record and the
same emitted patch. -/
theorem receivedRow_stable (nv : CVRVersion) (existing : Option RowRecord)
    (e : ReceivedRowEntry)
    (hzero : e.refCounts.all (fun qd => qd.2 == 0) = true) :
    receivedRow nv (some (receivedRow nv existing e).1) e =
      receivedRow nv existing e := by
  have hmi : mergeRefCounts ((receivedRow nv existing e).1).refCounts e.refCounts =
      ((receivedRow nv existing e).1).refCounts :=
    mergeRefCounts_idem (existing.bind RowRecord.refCounts) e.refCounts hzero
  rw [receivedRow_stable' nv ((receivedRow nv existing e).1) e rfl hmi]
  rfl

/-- **C5**: `received` is idempotent on a `(rowID, contents, version,
refCountDelta = 0)` entry: applying the same entry a second time yields the
same CVR rowset state and exactly the first application's patch output (the
same single put, or none), with no additional patch. -/
theorem received_idempotent (st : CVRRowsState) (id : RowID) (e : ReceivedRowEntry)
    (hzero : e.refCounts.all (fun qd => qd.2 == 0) = true) :
    received (received st [(id, e)]).1 [(id, e)] = received st [(id, e)] := by
  have hlk : (recordSet st.rows id (receivedRow st.newVersion (st.rows.lookup id) e).1).lookup id =
      some (receivedRow st.newVersion (st.rows.lookup id) e).1 := by
    rw [recordSet_lookup]
    simp
  have hstable := receivedRow_stable st.newVersion (st.rows.lookup id) e hzero
  simp only [received, List.foldl_cons, List.foldl_nil, hlk, hstable]
  rw [recordSet_self _ _ _ (by rw [recordSet_lookup]; simp)]

/-- Witness for C5: one live row re-received with a zero refcount delta. -/
theorem received_idempotent_witness :
    received
        (received
          { newVersion := { stateVersion := ("1aa"), minorVersion := 1 }
            rows := [( { rowSchema := ("public"), table := ("issues")
                         rowKey := [(("id"), ("123"))] },
                       { rowVersion := ("03")
                         patchVersion := { stateVersion := ("1a0"), minorVersion := 0 }
                         refCounts := some [(("oneHash"), 1)] } )] }
          [( { rowSchema := ("public"), table := ("issues")
               rowKey := [(("id"), ("123"))] },
             { version := ("03"), refCounts := [(("oneHash"), 0)]
               contents := JSVal.obj [] } )]).1
        [( { rowSchema := ("public"), table := ("issues")
             rowKey := [(("id"), ("123"))] },
           { version := ("03"), refCounts := [(("oneHash"), 0)]
             contents := JSVal.obj [] } )] =
      received
        { newVersion := { stateVersion := ("1aa"), minorVersion := 1 }
          rows := [( { rowSchema := ("public"), table := ("issues")
                       rowKey := [(("id"), ("123"))] },
                     { rowVersion := ("03")
                       patchVersion := { stateVersion := ("1a0"), minorVersion := 0 }
                       refCounts := some [(("oneHash"), 1)] } )] }
        [( { rowSchema := ("public"), table := ("issues")
             rowKey := [(("id"), ("123"))] },
           { version := ("03"), refCounts := [(("oneHash"), 0)]
             contents := JSVal.obj [] } )] :=
  received_idempotent
    { newVersion := { stateVersion := ("1aa"), minorVersion := 1 }
      rows := [( { rowSchema := ("public"), table := ("issues")
                   rowKey := [(("id"), ("123"))] },
                 { rowVersion := ("03")
                   patchVersion := { stateVersion := ("1a0"), minorVersion := 0 }
                   refCounts := some [(("oneHash"), 1)] } )] }
    { rowSchema := ("public"), table := ("issues"), rowKey := [(("id"), ("123"))] }
    { version := ("03"), refCounts := [(("oneHash"), 0)], contents := JSVal.obj [] }
    (by rfl)

end Spec2Proof
